import Mathlib

/-!
Verification development for the KCD-2-Dice-Calc repository.

The Python sources are shallowly embedded as Lean definitions:
* `src/scoring_system.py` : `score_dice_roll` (descriptive scorer) and
  `_score_dice_roll_numba` (numeric fast path), embedded over `List Nat`.
* `src/turn_simulator.py` : keep-option enumeration, the heuristic option
  ranker (floats modelled as `Rat`), the per-turn simulation loop (random
  draws modelled as an explicit stream of rolls), the Monte-Carlo
  aggregator and the combination-search worker/ranking.
* `src/game_simulator.py` : the full-game loop (per-turn outcomes modelled
  as explicit streams of banked gains).

Machine integers are modelled as `Nat`/`Rat`; Python floats are modelled as
exact rationals (the float expressions involved are used only for ranking
and for identities that the claims quantify over).
-/

namespace KCD2Dice

/-! ## Embedding of `src/scoring_system.py` -/

/-- `desc += ' + '` joining used throughout `score_dice_roll`. -/
def joinDesc (d c : String) : String := if d = "" then c else d ++ " + " ++ c

/-- One iteration of the of-a-kind loop in `score_dice_roll`
(`src/scoring_system.py` lines 122-156): if the remaining dice hold three or
more of value `v`, score `base * 2^(count-3)` (base 1000 for 1s, else
`v*100`), record the combination, and remove all dice of that value.
State: (total_score, combinations, desc, remaining_dice). -/
def kindStep (st : Nat × List (Nat × String) × String × List Nat) (v : Nat) :
    Nat × List (Nat × String) × String × List Nat :=
  let total := st.1
  let combos := st.2.1
  let desc := st.2.2.1
  let rem := st.2.2.2
  let c := rem.count v
  if 3 ≤ c then
    let base := if v = 1 then 1000 else v * 100
    let score := if 3 < c then base * 2 ^ (c - 3) else base
    let key :=
      if c ≤ 3 then "three_" ++ toString v
      else (if c = 4 then "four" else if c = 5 then "five" else "six") ++ "_" ++ toString v
    let cdesc :=
      if c ≤ 3 then "Three " ++ toString v ++ "s"
      else (if c = 4 then "Four " else if c = 5 then "Five " else "Six ") ++ toString v ++ "s"
    (total + score, combos ++ [(score, key)], joinDesc desc cdesc, rem.filter (fun x => x ≠ v))
  else st

/-- The tail of `score_dice_roll` (`src/scoring_system.py` lines 158-191):
score the remaining single 1s and 5s, then return
"no scoring combination" when the total is 0.
State: (total_score, combinations, desc, remaining_dice). -/
def singlesPhase (st : Nat × List (Nat × String) × String × List Nat) :
    Nat × List (Nat × String) × String :=
  let total := st.1
  let combos := st.2.1
  let desc := st.2.2.1
  let rem := st.2.2.2
  let ones := rem.count 1
  let total := if 0 < ones then total + ones * 100 else total
  let combos := if 0 < ones then combos ++ [(ones * 100, "single_1")] else combos
  let desc :=
    if 0 < ones then
      joinDesc desc (toString ones ++ (if ones = 1 then " Single 1" else " Single 1s"))
    else desc
  let rem := if 0 < ones then rem.filter (fun x => x ≠ 1) else rem
  let fives := rem.count 5
  let total := if 0 < fives then total + fives * 50 else total
  let combos := if 0 < fives then combos ++ [(fives * 50, "single_5")] else combos
  let desc :=
    if 0 < fives then
      joinDesc desc (toString fives ++ (if fives = 1 then " Single 5" else " Single 5s"))
    else desc
  if total = 0 then (0, [], "No scoring combination") else (total, combos, desc)

/-- Embedding of `score_dice_roll` (`src/scoring_system.py` lines 71-191).
Returns `(total_score, combinations_list, description)`.  Straights are
checked first (full straight returns immediately); otherwise a partial
straight consumes one die of each needed value, or the of-a-kind loop runs
over values 6 down to 1; finally leftover single 1s and 5s are scored by
`singlesPhase`.  Python's `list.remove` is `List.erase`; removing all
counted occurrences of a value is `List.filter (· ≠ v)`. -/
def score_dice_roll (dice_values : List Nat) : Nat × List (Nat × String) × String :=
  if [1, 2, 3, 4, 5, 6].all (fun v => dice_values.contains v) then
    (1500, [((1500 : Nat), "full_straight")], "Full straight (1, 2, 3, 4, 5, 6)")
  else
    singlesPhase
      (if [1, 2, 3, 4, 5].all (fun v => dice_values.contains v) then
        (500, [((500 : Nat), "partial_straight_1")], "Partial straight (1, 2, 3, 4, 5)",
          ((((dice_values.erase 1).erase 2).erase 3).erase 4).erase 5)
      else if [2, 3, 4, 5, 6].all (fun v => dice_values.contains v) then
        (750, [((750 : Nat), "partial_straight_2")], "Partial straight (2, 3, 4, 5, 6)",
          ((((dice_values.erase 2).erase 3).erase 4).erase 5).erase 6)
      else
        [6, 5, 4, 3, 2, 1].foldl kindStep (0, [], "", dice_values))

/-- Of-a-kind contribution used by the numba fast path
(`src/scoring_system.py` lines 242-260): for a count `c` of value `v`,
`base * 2^(c-3)` when `c ≥ 3`, else 0. -/
def numbaKind (v c : Nat) : Nat :=
  if 3 ≤ c then (if v = 1 then 1000 else v * 100) * 2 ^ (c - 3) else 0

/-- Tail of `_score_dice_roll_numba` after the straight handling: of-a-kind
scores for values 6 down to 1 (zeroing the counts of scored values), then
leftover single 1s and 5s. -/
def numbaTail (c1 c2 c3 c4 c5 c6 total : Nat) : Nat :=
  let total := total + numbaKind 6 c6 + numbaKind 5 c5 + numbaKind 4 c4
    + numbaKind 3 c3 + numbaKind 2 c2 + numbaKind 1 c1
  let s1 := if 3 ≤ c1 then 0 else c1
  let s5 := if 3 ≤ c5 then 0 else c5
  let total := if 0 < s1 then total + s1 * 100 else total
  if 0 < s5 then total + s5 * 50 else total

/-- Embedding of `_score_dice_roll_numba` (`src/scoring_system.py` lines
198-270).  `counts[v]` for `v ∈ 1..6` equals `arr.count v` (the Python loop
skips out-of-range values, which cannot collide with an in-range count).
Full straight scores 1500 only with exactly 6 dice; otherwise a partial
straight consumes one die of each needed value before the of-a-kind and
singles phases. -/
def score_dice_roll_numba (arr : List Nat) : Nat :=
  let n := arr.length
  let c1 := arr.count 1
  let c2 := arr.count 2
  let c3 := arr.count 3
  let c4 := arr.count 4
  let c5 := arr.count 5
  let c6 := arr.count 6
  if (0 < c1 ∧ 0 < c2 ∧ 0 < c3 ∧ 0 < c4 ∧ 0 < c5 ∧ 0 < c6) ∧ n = 6 then 1500
  else if 0 < c1 ∧ 0 < c2 ∧ 0 < c3 ∧ 0 < c4 ∧ 0 < c5 then
    numbaTail (c1 - 1) (c2 - 1) (c3 - 1) (c4 - 1) (c5 - 1) c6 500
  else if 0 < c2 ∧ 0 < c3 ∧ 0 < c4 ∧ 0 < c5 ∧ 0 < c6 then
    numbaTail c1 (c2 - 1) (c3 - 1) (c4 - 1) (c5 - 1) (c6 - 1) 750
  else
    numbaTail c1 c2 c3 c4 c5 c6 0

/-- Nondecreasing rolls of a given length with values in `lo..6`; used to
enumerate rolls up to permutation when checking the two scorers against each
other. -/
def sortedRolls : Nat → Nat → List (List Nat)
  | 0, _ => [[]]
  | k + 1, lo => (List.range' lo (7 - lo)).flatMap (fun v => (sortedRolls k v).map (fun r => v :: r))

/-! ## Embedding of `src/turn_simulator.py` -/

/-- A keep option as produced by `DiceSimulator._identify_all_keep_options`
(`src/turn_simulator.py` lines 102-163): kept roll indices (in increasing
order, as produced by `itertools.combinations`), the score of the kept
values, and the human-readable description. -/
structure KeepOption where
  idxs : List Nat
  score : Nat
  desc : String
deriving Repr, DecidableEq

/-- `[roll[i] for i in indices]`. Out-of-range indices (never produced) read 0. -/
def keepValues (roll idxs : List Nat) : List Nat := idxs.map (fun i => roll.getD i 0)

/-- The integer score of a keep, `score, _, _ = score_dice_roll(keep_values)`. -/
def keepScore (roll idxs : List Nat) : Nat := (score_dice_roll (keepValues roll idxs)).1

/-- Embedding of the nested `_is_pure_scoring_set` (`src/turn_simulator.py`
lines 116-143): the values score positively, and (unless there is a single
die) removing any single die yields a strictly lower score.  The JIT and
pure-Python branches implement the same test; the scorer used here is the
descriptive one. -/
def is_pure_scoring_set (values : List Nat) : Bool :=
  let full := (score_dice_roll values).1
  if full = 0 then false
  else if values.length = 1 then true
  else (List.range values.length).all
    (fun j => decide ((score_dice_roll (values.eraseIdx j)).1 < full))

/-- Embedding of `DiceSimulator._identify_all_keep_options`
(`src/turn_simulator.py` lines 102-163): every non-empty subset of roll
indices (sizes 1..n, subsets as increasing index lists, mirrored by
`sublistsLen` over `range n`) whose values score positively and pass the
purity test, sorted by score descending (Python's stable sort; equal-score
generation order is not relied upon by any theorem below). -/
def identify_all_keep_options (roll : List Nat) : List KeepOption :=
  let n := roll.length
  let options := (List.range' 1 n).flatMap (fun k =>
    ((List.range n).sublistsLen k).filterMap (fun idxs =>
      let kv := keepValues roll idxs
      let score := (score_dice_roll kv).1
      if 0 < score ∧ is_pure_scoring_set kv then
        some ⟨idxs, score, (score_dice_roll kv).2.2⟩
      else none))
  options.insertionSort (fun a b => b.score ≤ a.score)

/-- A ranked option as produced by `DiceSimulator._find_optimal_choices`
(`src/turn_simulator.py` lines 165-216): keep indices, immediate score,
estimated expected value (a Python float, modelled as an exact rational),
and description. -/
structure EnhancedOption where
  idxs : List Nat
  score : Nat
  ev : Rat
  desc : String
deriving Repr, DecidableEq

/-- The heuristic expected-value estimate attached to one keep option
(`src/turn_simulator.py` lines 186-208): immediate score, plus
`remaining * 25` discounted by the bust risk `max(0.1, 0.1 * remaining)`
when dice remain, or a flat bonus of 150 when the keep clears the roll and
more dice exist in the full set. -/
def enhanceOption (rollLen diceLeft : Nat) (o : KeepOption) : EnhancedOption :=
  let kept := o.idxs.length
  let remaining := rollLen - kept
  let ev : Rat := o.score
  let ev :=
    if 0 < remaining then
      let future : Rat := (remaining : Rat) * 25
      let bustRisk : Rat := max (1 / 10 : Rat) ((1 / 10 : Rat) * (remaining : Rat))
      ev + future * (1 - bustRisk)
    else if remaining = 0 ∧ rollLen < diceLeft then ev + 150
    else ev
  ⟨o.idxs, o.score, ev, o.desc⟩

/-- The sentinel "Bank now" pseudo-option (`src/turn_simulator.py` line 212):
empty index set, score 0, estimated value equal to the current accumulated
total. -/
def bankOption (current_total : Nat) : EnhancedOption :=
  ⟨[], 0, (current_total : Rat), "Bank now"⟩

/-- Embedding of `DiceSimulator._find_optimal_choices`
(`src/turn_simulator.py` lines 165-216): empty when the roll has no keep
option (bust); otherwise all keep options with their heuristic values plus
the "Bank now" pseudo-option, sorted by estimated value descending. -/
def find_optimal_choices (roll : List Nat) (dice_left current_total : Nat) :
    List EnhancedOption :=
  let all_options := identify_all_keep_options roll
  if all_options = [] then []
  else
    let enhanced := all_options.map (enhanceOption roll.length dice_left)
    let enhanced := enhanced ++ [bankOption current_total]
    enhanced.insertionSort (fun a b => b.ev ≤ a.ev)

/-- Loop body of `DiceSimulator._simulate_turn_with_optimal_choices`
(`src/turn_simulator.py` lines 283-389).  The random draws are modelled by
an explicit stream of rolls (one entry per loop iteration, consumed in
order); the dice pool is represented by its size, which is all the loop
observes; the textual choice log is omitted.  Returns
`(final_score, did_bust, number_of_rolls)`.  An exhausted stream ends the
loop with the current (non-bust) state, like the `max_turns` guard. -/
def sim_turn_go (fullCount : Nat) :
    Nat → Nat → Nat → List (List Nat) → Nat × Bool × Nat
  | currentCount, totalScore, rollCount, rolls =>
    if currentCount = 0 ∨ 50 ≤ rollCount then (totalScore, false, rollCount)
    else
      match rolls with
      | [] => (totalScore, false, rollCount)
      | roll :: rest =>
        let rc := rollCount + 1
        match find_optimal_choices roll fullCount totalScore with
        | [] => (0, true, rc)
        | best :: _ =>
          if best.idxs.isEmpty && best.desc == "Bank now" then (totalScore, false, rc)
          else
            let total := totalScore + best.score
            if 8000 ≤ total then (8000, false, rc)
            else
              let newCount := currentCount - best.idxs.length
              if newCount = 0 then sim_turn_go fullCount fullCount total rc rest
              else sim_turn_go fullCount newCount total rc rest

/-- `DiceSimulator._simulate_turn_with_optimal_choices` for a full set of
`fullCount` dice: starts with the full pool, zero accumulated score and
zero rolls. -/
def simulate_turn_with_optimal_choices (fullCount : Nat) (rolls : List (List Nat)) :
    Nat × Bool × Nat :=
  sim_turn_go fullCount fullCount 0 0 rolls

/-- Statistics returned by `DiceSimulator.simulate_dice_combination`
(`src/turn_simulator.py` lines 476-505). -/
structure ComboStats where
  avg_score : Rat
  bust_rate : Rat
  avg_rolls : Rat
  expected_value : Rat
  max_score : Nat
deriving Repr, DecidableEq

/-- Embedding of `DiceSimulator.simulate_dice_combination`
(`src/turn_simulator.py` lines 414-505): one simulated turn per trial
stream, then `avg_score = total_score / max(1, n)`,
`bust_rate = bust_count / max(1, n)`,
`avg_rolls = sum(turn_lengths) / max(1, len(turn_lengths))` and
`expected_value = avg_score * (1 - bust_rate)`. -/
def simulate_dice_combination (fullCount : Nat) (trials : List (List (List Nat))) :
    ComboStats :=
  let results := trials.map (simulate_turn_with_optimal_choices fullCount)
  let n := results.length
  let total_score := (results.map (fun r => r.1)).sum
  let bust_count := (results.filter (fun r => r.2.1)).length
  let turn_lengths := results.map (fun r => r.2.2)
  let avg_score : Rat := (total_score : Rat) / ((max 1 n : Nat) : Rat)
  let bust_rate : Rat := (bust_count : Rat) / ((max 1 n : Nat) : Rat)
  let avg_rolls : Rat := ((turn_lengths.sum : Nat) : Rat) / ((max 1 turn_lengths.length : Nat) : Rat)
  let expected_value := avg_score * (1 - bust_rate)
  ⟨avg_score, bust_rate, avg_rolls, expected_value, (results.map (fun r => r.1)).foldl max 0⟩

/-- A worker result: the per-combination statistics plus the composite rank
score attached by `_eval_combo_worker`. -/
structure WorkerResult where
  stats : ComboStats
  rank_score : Rat
deriving Repr, DecidableEq

/-- Embedding of `_eval_combo_worker` (`src/turn_simulator.py` lines 39-65):
runs the Monte-Carlo aggregation for one candidate and attaches
`rank_score = 0.6 * ev + 0.3 * (ev / max(1e-9, avg_rolls)) + 0.1 * ((1 - bust) * ev)`. -/
def eval_combo_worker (fullCount : Nat) (trials : List (List (List Nat))) :
    WorkerResult :=
  let res := simulate_dice_combination fullCount trials
  let ev := res.expected_value
  let bust := res.bust_rate
  let avg_rolls := max (1 / 1000000000 : Rat) res.avg_rolls
  let rate := ev / avg_rolls
  let reliability := (1 - bust) * ev
  ⟨res, (6 / 10 : Rat) * ev + (3 / 10 : Rat) * rate + (1 / 10 : Rat) * reliability⟩

/-- The final ordering step of `find_optimal_dice_combination`
(`src/turn_simulator.py` lines 1056-1057):
`results.sort(key=lambda x: x.get("rank_score", 0.0), reverse=True)`.
Worker completion order feeds this sort, so it is modelled on an arbitrary
list of worker results. -/
def sortResultsByRank (results : List WorkerResult) : List WorkerResult :=
  results.insertionSort (fun a b => b.rank_score ≤ a.rank_score)

/-! ## Embedding of `src/game_simulator.py` -/

/-- `GameResult` (`src/game_simulator.py` lines 31-38); the optional
per-turn log is omitted (presentation only). -/
structure GameResult where
  player_score : Nat
  ai_score : Nat
  turns : Nat
  first_player : String
  winner : String
deriving Repr, DecidableEq

/-- Loop of `GameSimulator.play_game` (`src/game_simulator.py` lines
92-149).  Per-turn banked gains are modelled by one explicit stream per
side (a bust contributes 0, exactly as `_play_single_turn` returns).
`fuel` bounds the number of loop iterations; `none` means the modelled run
did not terminate within the provided fuel/streams. -/
def play_game_go (win_target : Nat) (first : String) :
    Nat → Nat → Nat → Nat → String → List Nat → List Nat → Option GameResult
  | 0, p, a, turns, _, _, _ =>
    if p < win_target ∧ a < win_target then none
    else
      some ⟨min p win_target, min a win_target, turns, first,
        if win_target ≤ p then "player" else "ai"⟩
  | fuel + 1, p, a, turns, cur, pGains, aGains =>
    if p < win_target ∧ a < win_target then
      if cur = "player" then
        match pGains with
        | [] => none
        | g :: rest => play_game_go win_target first fuel (p + g) a (turns + 1) "ai" rest aGains
      else
        match aGains with
        | [] => none
        | g :: rest =>
          play_game_go win_target first fuel p (a + g) (turns + 1) "player" pGains rest
    else
      some ⟨min p win_target, min a win_target, turns, first,
        if win_target ≤ p then "player" else "ai"⟩

/-- `GameSimulator.play_game`: totals start at 0, the given side moves
first, and the loop runs while both totals are below `win_target`. -/
def play_game (win_target : Nat) (first : String) (pGains aGains : List Nat) :
    Option GameResult :=
  play_game_go win_target first (pGains.length + aGains.length + 1) 0 0 0 first pGains aGains

/-! ## Spec-modelled policy-aware decision step

The policy attributes (`bank_min_value`, `bank_min_applies_first_n_rolls`,
`no_bank_on_clear`, `reset_count_on_refresh`, `bank_if_dice_below`,
`win_target`) are assigned on `DiceSimulator` by `GameSimulator._configure_sim`
(`src/game_simulator.py` lines 60-68) and by `main.py`, and `main.py` calls
`sim._find_optimal_choices(..., roll_index=...)`, but the revision of
`src/turn_simulator.py` present under `src/` contains no policy handling at
all (its `_find_optimal_choices` does not even accept `roll_index`).  The
policy-aware decision step is therefore modelled from the spec (§4.3). -/

/-- `PolicyConfig` (spec §3): all fields optional, absence meaning "no
restriction" (`bank_if_dice_below = 0` disables that rule, as in
`src/game_simulator.py` line 67). -/
structure PolicyConfig where
  bank_min_value : Option Nat
  bank_min_applies_first_n_rolls : Option Nat
  no_bank_on_clear : Bool
  reset_count_on_refresh : Bool
  bank_if_dice_below : Nat
  win_target : Option Nat
deriving Repr, DecidableEq

/-- The test used for the sentinel option, as in `src/turn_simulator.py`
line 350: empty index set and description "Bank now". -/
def isBankOption (o : EnhancedOption) : Bool :=
  o.idxs.isEmpty && o.desc == "Bank now"

/-- Modelled from the spec (§4.3): the first PolicyConfig override —
"If `bank_min_value` set and roll_index ≤ `bank_min_applies_first_n_rolls`
and accumulated_total-after-keep < bank_min_value, the Bank option is
removed from consideration for that step".  For the Bank pseudo-option the
total after its (empty) keep is the current accumulated total, which is the
value tested here. -/
def bankMinBlocks (policy : PolicyConfig) (rollIdx total : Nat) : Bool :=
  match policy.bank_min_value, policy.bank_min_applies_first_n_rolls with
  | some m, some n => decide (rollIdx ≤ n) && decide (total < m)
  | _, _ => false

/-- Modelled from the spec (§4.3): the candidate list for one decision
step: the ranked options of `_find_optimal_choices` with the Bank
pseudo-option removed when the bank-minimum rule blocks it, and also
removed when `no_bank_on_clear` is set and the top-ranked action would
empty the pool. -/
def spec_candidates (policy : PolicyConfig) (roll : List Nat)
    (totalDice accumulated rollIdx : Nat) : List EnhancedOption :=
  let options := find_optimal_choices roll totalDice accumulated
  let options :=
    if bankMinBlocks policy rollIdx accumulated then
      options.filter (fun o => !isBankOption o)
    else options
  if policy.no_bank_on_clear then
    match options.head? with
    | some top =>
      if !isBankOption top && top.idxs.length == roll.length then
        options.filter (fun o => !isBankOption o)
      else options
    | none => options
  else options

/-- Outcome of one policy-aware decision step. -/
inductive TurnStep where
  | busted : TurnStep
  | banked : Nat → TurnStep
  | next : Nat → Nat → Nat → TurnStep
deriving Repr, DecidableEq

/-- Modelled from the spec (§4.3): one decision step of the policy-aware
turn engine that is absent from `src/turn_simulator.py`.  No keep option
means a bust.  Otherwise the highest-ranked permitted candidate is
selected; choosing Bank banks the current accumulated total.  For a keep,
the forced-bank override of `win_target` applies first ("this overrides
all other rules"), then the bank-minimum rule forces continuation
("forces continuation"), then `bank_if_dice_below` forces banking at the
total including the keep.  On continuation an emptied pool refreshes to
the full set and, when `reset_count_on_refresh` is set, the roll counter
restarts (reset to 1, then incremented for the next roll). -/
def spec_decision_step (policy : PolicyConfig) (roll : List Nat)
    (totalDice accumulated rollIdx : Nat) : TurnStep :=
  if identify_all_keep_options roll = [] then .busted
  else
    match (spec_candidates policy roll totalDice accumulated rollIdx).head? with
    | none => .busted
    | some best =>
      if isBankOption best then .banked accumulated
      else
        let total' := accumulated + best.score
        let remaining := roll.length - best.idxs.length
        let nextCount := if remaining = 0 then totalDice else remaining
        let nextIdx :=
          if remaining = 0 ∧ policy.reset_count_on_refresh then 1 + 1 else rollIdx + 1
        if (match policy.win_target with | some t => decide (t ≤ total') | none => false) then
          .banked total'
        else if bankMinBlocks policy rollIdx total' then
          .next total' nextCount nextIdx
        else if 0 < policy.bank_if_dice_below ∧ remaining ≤ policy.bank_if_dice_below then
          .banked total'
        else .next total' nextCount nextIdx

/-! ## Theorems -/

/-- C5: for a roll of exactly `c` copies of a value `v` with `3 ≤ c ≤ 6` and
`1 ≤ v ≤ 6`, the scorer returns `(1000 if v = 1 else v * 100) * 2^(c - 3)`. -/
theorem claim_C5 (v c : Nat) (hc3 : 3 ≤ c) (hc6 : c ≤ 6) (hv1 : 1 ≤ v) (hv6 : v ≤ 6) :
    (score_dice_roll (List.replicate c v)).1 =
      (if v = 1 then 1000 else v * 100) * 2 ^ (c - 3) := by
  interval_cases v <;> interval_cases c <;> decide

/-- Witness for C5 at `v = 5`, `c = 4` (four fives score 1000). -/
theorem claim_C5_witness :
    (score_dice_roll (List.replicate 4 5)).1 = (if 5 = 1 then 1000 else 5 * 100) * 2 ^ (4 - 3) :=
  claim_C5 5 4 (by decide) (by decide) (by decide) (by decide)

/-- C6: at any point of a turn, a roll with no valid keep option ends the
turn as a bust returned as an ordinary value: score 0 and bust flag true,
whatever the accumulated total was. -/
theorem claim_C6 (fullCount currentCount totalScore rollCount : Nat)
    (roll : List Nat) (rest : List (List Nat))
    (hcount : currentCount ≠ 0) (hrc : rollCount < 50)
    (hbust : find_optimal_choices roll fullCount totalScore = []) :
    sim_turn_go fullCount currentCount totalScore rollCount (roll :: rest) =
      (0, true, rollCount + 1) := by
  rw [sim_turn_go]
  rw [if_neg (by omega), hbust]

/-- Witness for C6: a bust on the roll `[2]` with 500 points accumulated. -/
theorem claim_C6_witness :
    sim_turn_go 6 3 500 1 [[2]] = (0, true, 1 + 1) :=
  claim_C6 6 3 500 1 [2] [] (by decide) (by decide) (by decide)

/-- C7: the aggregator's `expected_value` equals
`avg_score * (1 - bust_rate)` by construction, for any trial count ≥ 1. -/
theorem claim_C7 (fullCount : Nat) (trials : List (List (List Nat)))
    (h : 1 ≤ trials.length) :
    (simulate_dice_combination fullCount trials).expected_value =
      (simulate_dice_combination fullCount trials).avg_score *
        (1 - (simulate_dice_combination fullCount trials).bust_rate) := rfl

/-- Witness for C7 on a single trial. -/
theorem claim_C7_witness :
    (simulate_dice_combination 1 [[[1]]]).expected_value =
      (simulate_dice_combination 1 [[[1]]]).avg_score *
        (1 - (simulate_dice_combination 1 [[[1]]]).bust_rate) :=
  claim_C7 1 [[[1]]] (by decide)

/-- C8 fails as stated: on a bust roll (`[2]` scores nothing) the candidate
list is empty and in particular does not contain the Bank pseudo-option. -/
theorem claim_C8_counterexample :
    ¬ bankOption 100 ∈ find_optimal_choices [2] 6 100 := by decide

/-- C8 (amended): whenever the roll has at least one keep option, the
candidate list contains the Bank pseudo-option (empty index set, score 0,
estimated value equal to the current accumulated total). -/
theorem claim_C8 (roll : List Nat) (dice_left current_total : Nat)
    (h : identify_all_keep_options roll ≠ []) :
    bankOption current_total ∈ find_optimal_choices roll dice_left current_total := by
  unfold find_optimal_choices
  rw [if_neg h]
  simp [List.mem_insertionSort]

/-- Witness for C8 on roll `[1]` with 7 points accumulated. -/
theorem claim_C8_witness :
    bankOption 7 ∈ find_optimal_choices [1] 6 7 :=
  claim_C8 [1] 6 7 (by decide)

/-- If there is no keep option, the policy-aware candidate list is empty. -/
theorem spec_candidates_of_no_options (policy : PolicyConfig) (roll : List Nat)
    (totalDice accumulated rollIdx : Nat)
    (h : identify_all_keep_options roll = []) :
    spec_candidates policy roll totalDice accumulated rollIdx = [] := by
  unfold spec_candidates find_optimal_choices
  rw [if_pos h]
  simp

/-- C2: with a configured `win_target`, whenever the chosen keep pushes the
accumulated total to or past it, the step banks — whatever the other policy
flags are — and the banked total is the accumulated total after that keep. -/
theorem claim_C2 (policy : PolicyConfig) (roll : List Nat)
    (totalDice accumulated rollIdx T : Nat) (best : EnhancedOption)
    (hT : policy.win_target = some T)
    (hbest : (spec_candidates policy roll totalDice accumulated rollIdx).head? = some best)
    (hkeep : isBankOption best = false)
    (hreach : T ≤ accumulated + best.score) :
    spec_decision_step policy roll totalDice accumulated rollIdx =
      TurnStep.banked (accumulated + best.score) := by
  have hne : identify_all_keep_options roll ≠ [] := by
    intro h
    rw [spec_candidates_of_no_options policy roll totalDice accumulated rollIdx h] at hbest
    simp at hbest
  unfold spec_decision_step
  rw [if_neg hne, hbest]
  simp [hkeep, hT, hreach]

/-- Witness for C2: `win_target = 200`, roll `[1,5]` with 120 accumulated;
the chosen keep (both dice, 150 points) reaches 270 ≥ 200, so the step
banks 270 even though `bank_if_dice_below` and the other flags are set. -/
theorem claim_C2_witness :
    spec_decision_step ⟨none, none, true, true, 3, some 200⟩ [1, 5] 6 120 1 =
      TurnStep.banked (120 + 150) := by
  exact claim_C2 ⟨none, none, true, true, 3, some 200⟩ [1, 5] 6 120 1 200
    ⟨[0, 1], 150, 300, "1 Single 1 + 1 Single 5"⟩ rfl
    (by with_unfolding_all rfl) (by decide) (by decide)

/-- When the bank-minimum rule blocks banking at the current accumulated
total, no candidate of the policy-aware step is the Bank pseudo-option. -/
theorem spec_candidates_no_bank (policy : PolicyConfig) (roll : List Nat)
    (totalDice accumulated rollIdx : Nat)
    (hblocks : bankMinBlocks policy rollIdx accumulated = true) :
    ∀ o ∈ spec_candidates policy roll totalDice accumulated rollIdx,
      isBankOption o = false := by
  intro o ho
  have hfilter : ∀ {x : EnhancedOption} {l : List EnhancedOption},
      x ∈ l.filter (fun y => !isBankOption y) → isBankOption x = false := by
    intro x l h
    simpa using (List.mem_filter.mp h).2
  simp only [spec_candidates, hblocks, if_true] at ho
  split at ho
  · split at ho
    · split at ho
      · exact hfilter ho
      · exact hfilter ho
    · exact hfilter ho
  · exact hfilter ho

/-- C1 fails as stated: with `bank_min_value = 500` over the first 2 rolls
but `win_target = 100`, the roll `[1]` at roll index 1 with 0 accumulated
keeps the single 1 for 100 points, staying below the bank minimum — yet the
step banks, because the spec gives the win-target forced bank priority over
every other rule. -/
theorem claim_C1_counterexample :
    spec_decision_step ⟨some 500, some 2, false, false, 0, some 100⟩ [1] 1 0 1 =
      TurnStep.banked 100 := by
  with_unfolding_all rfl

/-- C1 (amended): under an active bank-minimum rule (set, positive, roll
index within the first N rolls, accumulated total after the chosen keep
below the minimum), the Bank pseudo-option is excluded from the candidate
list, and — provided the win-target forced bank does not fire on this step
— the engine does not bank on this step. -/
theorem claim_C1 (policy : PolicyConfig) (roll : List Nat)
    (totalDice accumulated rollIdx m n : Nat) (best : EnhancedOption)
    (hm : policy.bank_min_value = some m) (hpos : 0 < m)
    (hn : policy.bank_min_applies_first_n_rolls = some n)
    (hidx : rollIdx ≤ n)
    (hbest : (spec_candidates policy roll totalDice accumulated rollIdx).head? = some best)
    (hlow : accumulated + best.score < m)
    (hwt : ∀ t, policy.win_target = some t → accumulated + best.score < t) :
    (∀ o ∈ spec_candidates policy roll totalDice accumulated rollIdx,
        isBankOption o = false) ∧
      ∀ s, spec_decision_step policy roll totalDice accumulated rollIdx ≠
        TurnStep.banked s := by
  have hblocks : bankMinBlocks policy rollIdx accumulated = true := by
    unfold bankMinBlocks
    rw [hm, hn]
    simp only [Bool.and_eq_true, decide_eq_true_eq]
    omega
  have hblocks' : bankMinBlocks policy rollIdx (accumulated + best.score) = true := by
    unfold bankMinBlocks
    rw [hm, hn]
    simp only [Bool.and_eq_true, decide_eq_true_eq]
    omega
  have hnobank := spec_candidates_no_bank policy roll totalDice accumulated rollIdx hblocks
  refine ⟨hnobank, ?_⟩
  intro s
  unfold spec_decision_step
  by_cases hne : identify_all_keep_options roll = []
  · rw [if_pos hne]
    simp
  rw [if_neg hne, hbest]
  have hkeep : isBankOption best = false :=
    hnobank best (List.mem_of_mem_head? (Option.mem_def.mpr hbest))
  cases hw : policy.win_target with
  | none => simp [hw, hkeep, hblocks']
  | some t =>
    have hlt : ¬ t ≤ accumulated + best.score := Nat.not_le.mpr (hwt t hw)
    simp [hw, hkeep, hblocks', hlt]

/-- Witness for C1: bank minimum 500 over the first 2 rolls, roll `[1]` at
index 1 with 0 accumulated; the keep scores 100 < 500, `win_target = 8000`
is far away, and the step continues. -/
theorem claim_C1_witness :
    (∀ o ∈ spec_candidates ⟨some 500, some 2, false, false, 5, some 8000⟩ [1] 6 0 1,
        isBankOption o = false) ∧
      ∀ s, spec_decision_step ⟨some 500, some 2, false, false, 5, some 8000⟩ [1] 6 0 1 ≠
        TurnStep.banked s :=
  claim_C1 ⟨some 500, some 2, false, false, 5, some 8000⟩ [1] 6 0 1 500 2
    ⟨[0], 100, 250, "1 Single 1"⟩ rfl (by decide) rfl (by decide)
    (by with_unfolding_all rfl) (by decide)
    (by intro t ht; injection ht with ht; subst ht; decide)

/-- C4: the keep-option enumerator returns exactly the non-empty index
subsets (increasing index lists, i.e. sublists of `range n`) whose values
score positively and pass the single-die-removal purity test, each paired
with its score (and description), and the result is sorted by score
descending. -/
theorem claim_C4 (roll : List Nat) (h1 : 1 ≤ roll.length) (h6 : roll.length ≤ 6)
    (hvals : ∀ v ∈ roll, 1 ≤ v ∧ v ≤ 6) :
    (∀ o ∈ identify_all_keep_options roll,
        o.idxs ≠ [] ∧ o.idxs.Sublist (List.range roll.length) ∧
          o.score = keepScore roll o.idxs ∧ 0 < o.score ∧
          is_pure_scoring_set (keepValues roll o.idxs) = true) ∧
      (∀ idxs : List Nat, idxs.Sublist (List.range roll.length) → idxs ≠ [] →
          0 < keepScore roll idxs → is_pure_scoring_set (keepValues roll idxs) = true →
          KeepOption.mk idxs (keepScore roll idxs)
              (score_dice_roll (keepValues roll idxs)).2.2 ∈ identify_all_keep_options roll) ∧
      (identify_all_keep_options roll).Sorted (fun a b => b.score ≤ a.score) := by
  haveI htot : IsTotal KeepOption (fun a b => b.score ≤ a.score) :=
    ⟨fun a b => Nat.le_total b.score a.score⟩
  haveI htrans : IsTrans KeepOption (fun a b => b.score ≤ a.score) :=
    ⟨fun _ _ _ hab hbc => le_trans hbc hab⟩
  refine ⟨?_, ?_, ?_⟩
  · intro o ho
    simp only [identify_all_keep_options, List.mem_insertionSort, List.mem_flatMap,
      List.mem_filterMap, List.mem_range'] at ho
    obtain ⟨k, ⟨i, hik, hk⟩, idxs, hmem, hf⟩ := ho
    obtain ⟨hsub, hlen⟩ := List.mem_sublistsLen.mp hmem
    by_cases hcond : 0 < (score_dice_roll (keepValues roll idxs)).1 ∧
        is_pure_scoring_set (keepValues roll idxs) = true
    · rw [if_pos hcond] at hf
      cases hf
      refine ⟨?_, hsub, rfl, hcond.1, hcond.2⟩
      intro hnil
      dsimp only at hnil
      rw [hnil] at hlen
      simp at hlen
      omega
    · rw [if_neg hcond] at hf
      cases hf
  · intro idxs hsub hne hscore hpure
    simp only [identify_all_keep_options, List.mem_insertionSort, List.mem_flatMap,
      List.mem_filterMap, List.mem_range']
    refine ⟨idxs.length, ⟨idxs.length - 1, ?_, ?_⟩, idxs, ?_, ?_⟩
    · have hle := hsub.length_le
      rw [List.length_range] at hle
      have : idxs.length ≠ 0 := fun hz => hne (List.eq_nil_of_length_eq_zero hz)
      omega
    · have : idxs.length ≠ 0 := fun hz => hne (List.eq_nil_of_length_eq_zero hz)
      omega
    · exact List.mem_sublistsLen.mpr ⟨hsub, rfl⟩
    · rw [if_pos ⟨hscore, hpure⟩]
      rfl
  · exact List.sorted_insertionSort _ _

/-- Witness for C4 on the roll `[1, 5]`. -/
theorem claim_C4_witness :
    (∀ o ∈ identify_all_keep_options [1, 5],
        o.idxs ≠ [] ∧ o.idxs.Sublist (List.range (List.length [1, 5])) ∧
          o.score = keepScore [1, 5] o.idxs ∧ 0 < o.score ∧
          is_pure_scoring_set (keepValues [1, 5] o.idxs) = true) ∧
      (∀ idxs : List Nat, idxs.Sublist (List.range (List.length [1, 5])) → idxs ≠ [] →
          0 < keepScore [1, 5] idxs → is_pure_scoring_set (keepValues [1, 5] idxs) = true →
          KeepOption.mk idxs (keepScore [1, 5] idxs)
              (score_dice_roll (keepValues [1, 5] idxs)).2.2 ∈ identify_all_keep_options [1, 5]) ∧
      (identify_all_keep_options [1, 5]).Sorted (fun a b => b.score ≤ a.score) :=
  claim_C4 [1, 5] (by decide) (by decide) (by decide)

/-- The roll counter of the turn loop never decreases. -/
theorem sim_turn_go_rollCount_le (rolls : List (List Nat)) :
    ∀ fullCount currentCount totalScore rollCount,
      rollCount ≤ (sim_turn_go fullCount currentCount totalScore rollCount rolls).2.2 := by
  induction rolls with
  | nil =>
    intro fc cc ts rc
    rw [sim_turn_go]
    split <;> simp
  | cons roll rest ih =>
    intro fc cc ts rc
    rw [sim_turn_go]
    split
    · simp
    · split
      · simp
      · split
        · simp
        · dsimp only
          split
          · simp
          · split
            · exact le_trans (Nat.le_succ rc) (ih fc fc _ (rc + 1))
            · exact le_trans (Nat.le_succ rc) (ih fc _ _ (rc + 1))

/-- A turn over a non-empty dice set with at least one available roll takes
at least one roll. -/
theorem simulate_turn_rolls_pos (fullCount : Nat) (roll : List Nat)
    (rest : List (List Nat)) (hfc : fullCount ≠ 0) :
    1 ≤ (simulate_turn_with_optimal_choices fullCount (roll :: rest)).2.2 := by
  unfold simulate_turn_with_optimal_choices
  rw [sim_turn_go]
  rw [if_neg (by omega)]
  split
  · simp
  · split
    · simp
    · dsimp only
      split
      · simp
      · split
        · exact sim_turn_go_rollCount_le rest fullCount fullCount _ 1
        · exact sim_turn_go_rollCount_le rest fullCount _ _ 1

/-- Lists of positive naturals have sum at least their length. -/
theorem length_le_sum_of_one_le (l : List Nat) (h : ∀ x ∈ l, 1 ≤ x) :
    l.length ≤ l.sum := by
  induction l with
  | nil => simp
  | cons x xs ih =>
    simp only [List.length_cons, List.sum_cons]
    have hx := h x (List.mem_cons_self x xs)
    have hxs := ih (fun y hy => h y (List.mem_cons_of_mem x hy))
    omega

/-- With a non-empty dice set and at least one trial, each with at least
one available roll, the aggregator's average roll count is at least 1. -/
theorem avg_rolls_ge_one (fullCount : Nat) (trials : List (List (List Nat)))
    (hfc : fullCount ≠ 0) (htr : trials ≠ []) (hne : ∀ t ∈ trials, t ≠ []) :
    1 ≤ (simulate_dice_combination fullCount trials).avg_rolls := by
  have hlen : 1 ≤ trials.length := by
    cases trials with
    | nil => exact absurd rfl htr
    | cons a l => simp
  have hsum : trials.length ≤
      ((trials.map (simulate_turn_with_optimal_choices fullCount)).map
        (fun r => r.2.2)).sum := by
    have hlen2 : ((trials.map (simulate_turn_with_optimal_choices fullCount)).map
        (fun r => r.2.2)).length = trials.length := by simp
    rw [← hlen2]
    apply length_le_sum_of_one_le
    intro x hx
    simp only [List.mem_map] at hx
    obtain ⟨r, hr, hrx⟩ := hx
    obtain ⟨t, ht, hrt⟩ := hr
    cases htl : t with
    | nil => exact absurd htl (hne t ht)
    | cons roll rest =>
      subst hrx
      rw [← hrt, htl]
      exact simulate_turn_rolls_pos fullCount roll rest hfc
  have hmax : max 1 ((trials.map (simulate_turn_with_optimal_choices fullCount)).map
      (fun r => r.2.2)).length = trials.length := by
    simp only [List.length_map]
    omega
  have hpos : (0 : Rat) < ((max 1 ((trials.map
      (simulate_turn_with_optimal_choices fullCount)).map (fun r => r.2.2)).length : Nat) : Rat) := by
    rw [hmax]
    exact_mod_cast hlen
  unfold simulate_dice_combination
  simp only
  rw [le_div_iff hpos, one_mul, hmax]
  exact_mod_cast hsum

/-- C9: for every evaluated candidate the composite rank equals
`0.6 * ev + 0.3 * (ev / avg_rolls) + 0.1 * ((1 - bust_rate) * ev)`
(the `max(1e-9, ·)` guard is inert because a turn always takes at least one
roll), and the search's final list is ordered by composite rank
descending. -/
theorem claim_C9 (fullCount : Nat) (trials : List (List (List Nat)))
    (hfc : fullCount ≠ 0) (htr : trials ≠ []) (hne : ∀ t ∈ trials, t ≠ [])
    (results : List WorkerResult) :
    (eval_combo_worker fullCount trials).rank_score =
        (6 / 10 : Rat) * (simulate_dice_combination fullCount trials).expected_value +
          (3 / 10 : Rat) * ((simulate_dice_combination fullCount trials).expected_value /
            (simulate_dice_combination fullCount trials).avg_rolls) +
          (1 / 10 : Rat) * ((1 - (simulate_dice_combination fullCount trials).bust_rate) *
            (simulate_dice_combination fullCount trials).expected_value) ∧
      (sortResultsByRank results).Sorted (fun a b => b.rank_score ≤ a.rank_score) := by
  constructor
  · have havg := avg_rolls_ge_one fullCount trials hfc htr hne
    have hmax : max (1 / 1000000000 : Rat)
        (simulate_dice_combination fullCount trials).avg_rolls =
          (simulate_dice_combination fullCount trials).avg_rolls :=
      max_eq_right (le_trans (by norm_num) havg)
    unfold eval_combo_worker
    dsimp only
    rw [hmax]
  · haveI : IsTotal WorkerResult (fun a b => b.rank_score ≤ a.rank_score) :=
      ⟨fun a b => le_total b.rank_score a.rank_score⟩
    haveI : IsTrans WorkerResult (fun a b => b.rank_score ≤ a.rank_score) :=
      ⟨fun _ _ _ hab hbc => le_trans hbc hab⟩
    exact List.sorted_insertionSort _ _

/-- Witness for C9 with one die, one single-roll trial and an empty result
list. -/
theorem claim_C9_witness :
    (eval_combo_worker 1 [[[1]]]).rank_score =
        (6 / 10 : Rat) * (simulate_dice_combination 1 [[[1]]]).expected_value +
          (3 / 10 : Rat) * ((simulate_dice_combination 1 [[[1]]]).expected_value /
            (simulate_dice_combination 1 [[[1]]]).avg_rolls) +
          (1 / 10 : Rat) * ((1 - (simulate_dice_combination 1 [[[1]]]).bust_rate) *
            (simulate_dice_combination 1 [[[1]]]).expected_value) ∧
      (sortResultsByRank []).Sorted (fun a b => b.rank_score ≤ a.rank_score) :=
  claim_C9 1 [[[1]]] (by decide) (by decide) (by decide) []

/-- Terminal case of the game loop: the returned record's properties. -/
theorem play_game_terminal (win_target p a turns : Nat) (first : String)
    (hguard : ¬(p < win_target ∧ a < win_target))
    (hinv : p < win_target ∨ a < win_target) :
    min p win_target ≤ win_target ∧ min a win_target ≤ win_target ∧
      ((if win_target ≤ p then "player" else "ai") = "player" ↔
        min p win_target = win_target) ∧
      ((min p win_target = win_target ∧ min a win_target ≠ win_target) ∨
        (min a win_target = win_target ∧ min p win_target ≠ win_target)) := by
  rw [Decidable.not_and_iff_or_not] at hguard
  rcases hinv with hp | ha
  · have haT : win_target ≤ a := by omega
    refine ⟨Nat.min_le_right _ _, Nat.min_le_right _ _, ?_, ?_⟩
    · rw [if_neg (by omega)]
      constructor
      · intro hw
        exact absurd hw (by decide)
      · intro hw
        omega
    · right
      omega
  · have hpT : win_target ≤ p := by omega
    refine ⟨Nat.min_le_right _ _, Nat.min_le_right _ _, ?_, ?_⟩
    · rw [if_pos hpT]
      constructor
      · intro _
        omega
      · intro _
        rfl
    · left
      omega

/-- Invariant of the game loop: starting from a state where at least one
side is still below the target, a terminating run returns capped scores,
the winner flag decides exactly by the player reaching the target, and
exactly one side has reached the target. -/
theorem play_game_go_spec (win_target : Nat) (first : String) :
    ∀ (fuel p a turns : Nat) (cur : String) (pGains aGains : List Nat) (r : GameResult),
      (p < win_target ∨ a < win_target) →
      play_game_go win_target first fuel p a turns cur pGains aGains = some r →
      r.player_score ≤ win_target ∧ r.ai_score ≤ win_target ∧
        (r.winner = "player" ↔ r.player_score = win_target) ∧
        ((r.player_score = win_target ∧ r.ai_score ≠ win_target) ∨
          (r.ai_score = win_target ∧ r.player_score ≠ win_target)) := by
  intro fuel
  induction fuel with
  | zero =>
    intro p a turns cur pGains aGains r hinv hrun
    simp only [play_game_go] at hrun
    split at hrun
    · simp at hrun
    · rename_i hguard
      cases hrun
      exact play_game_terminal win_target p a turns first hguard hinv
  | succ fuel ih =>
    intro p a turns cur pGains aGains r hinv hrun
    simp only [play_game_go] at hrun
    split at hrun
    · rename_i hguard
      split at hrun
      · cases pGains with
        | nil => simp at hrun
        | cons g rest => exact ih (p + g) a (turns + 1) "ai" rest aGains r (Or.inr hguard.2) hrun
      · cases aGains with
        | nil => simp at hrun
        | cons g rest =>
          exact ih p (a + g) (turns + 1) "player" pGains rest r (Or.inl hguard.1) hrun
    · rename_i hguard
      cases hrun
      exact play_game_terminal win_target p a turns first hguard hinv

/-- C10 fails as stated at `win_target = 0`: the game terminates at once
with both capped totals equal to the target, so it is not true that exactly
one side has reached the target. -/
theorem claim_C10_counterexample :
    ¬ ∀ r : GameResult, play_game 0 "player" [] [] = some r →
        ((r.player_score = 0 ∧ r.ai_score ≠ 0) ∨
          (r.ai_score = 0 ∧ r.player_score ≠ 0)) := by
  intro h
  have := h ⟨0, 0, 0, "player", "player"⟩ (by decide)
  simp at this

/-- C10 (amended): for `win_target ≥ 1`, every terminating run of
`play_game` returns scores capped at the target, declares the player the
winner exactly when the player's total reached the target, and exactly one
side's total has reached the target at loop exit. -/
theorem claim_C10 (win_target : Nat) (first : String) (pGains aGains : List Nat)
    (r : GameResult) (hT : 1 ≤ win_target)
    (hrun : play_game win_target first pGains aGains = some r) :
    r.player_score ≤ win_target ∧ r.ai_score ≤ win_target ∧
      (r.winner = "player" ↔ r.player_score = win_target) ∧
      ((r.player_score = win_target ∧ r.ai_score ≠ win_target) ∨
        (r.ai_score = win_target ∧ r.player_score ≠ win_target)) :=
  play_game_go_spec win_target first (pGains.length + aGains.length + 1) 0 0 0 first
    pGains aGains r (Or.inl hT) hrun

/-- Witness for C10: a two-turn game to 100 points. -/
theorem claim_C10_witness :
    (GameResult.mk 100 40 3 "player" "player").player_score ≤ 100 ∧
      (GameResult.mk 100 40 3 "player" "player").ai_score ≤ 100 ∧
      ((GameResult.mk 100 40 3 "player" "player").winner = "player" ↔
        (GameResult.mk 100 40 3 "player" "player").player_score = 100) ∧
      (((GameResult.mk 100 40 3 "player" "player").player_score = 100 ∧
          (GameResult.mk 100 40 3 "player" "player").ai_score ≠ 100) ∨
        ((GameResult.mk 100 40 3 "player" "player").ai_score = 100 ∧
          (GameResult.mk 100 40 3 "player" "player").player_score ≠ 100)) :=
  claim_C10 100 "player" [50, 60] [40] ⟨100, 40, 3, "player", "player"⟩
    (by decide) (by decide)

/-- `List.contains` is invariant under permutation. -/
theorem contains_perm {l l' : List Nat} (h : l.Perm l') (v : Nat) :
    l.contains v = l'.contains v := by
  show l.elem v = l'.elem v
  simp only [List.elem_eq_mem]
  exact decide_eq_decide.mpr h.mem_iff

/-- The numeric fast-path scorer depends only on the multiset of values. -/
theorem score_dice_roll_numba_perm {l l' : List Nat} (h : l.Perm l') :
    score_dice_roll_numba l = score_dice_roll_numba l' := by
  unfold score_dice_roll_numba
  rw [h.length_eq, h.count_eq 1, h.count_eq 2, h.count_eq 3, h.count_eq 4,
    h.count_eq 5, h.count_eq 6]

/-- One step of the of-a-kind fold preserves score equality and
permutation of the remaining dice. -/
theorem kindStep_inv (v : Nat) {s t : Nat × List (Nat × String) × String × List Nat}
    (h1 : s.1 = t.1) (h2 : s.2.2.2.Perm t.2.2.2) :
    (kindStep s v).1 = (kindStep t v).1 ∧
      (kindStep s v).2.2.2.Perm (kindStep t v).2.2.2 := by
  have hcount : s.2.2.2.count v = t.2.2.2.count v := h2.count_eq v
  by_cases hc : 3 ≤ t.2.2.2.count v
  · simp only [kindStep, hcount, if_pos hc]
    exact ⟨by rw [h1], h2.filter _⟩
  · simp only [kindStep, hcount, if_neg hc]
    exact ⟨h1, h2⟩

/-- The of-a-kind fold preserves score equality and permutation of the
remaining dice. -/
theorem kindFold_inv (vs : List Nat) :
    ∀ (s t : Nat × List (Nat × String) × String × List Nat),
      s.1 = t.1 → s.2.2.2.Perm t.2.2.2 →
      (vs.foldl kindStep s).1 = (vs.foldl kindStep t).1 ∧
        (vs.foldl kindStep s).2.2.2.Perm (vs.foldl kindStep t).2.2.2 := by
  induction vs with
  | nil =>
    intro s t h1 h2
    exact ⟨h1, h2⟩
  | cons v vs ih =>
    intro s t h1 h2
    simp only [List.foldl_cons]
    obtain ⟨h1', h2'⟩ := kindStep_inv v h1 h2
    exact ih _ _ h1' h2'

/-- The singles phase yields equal scores on states with equal totals and
permuted remaining dice. -/
theorem singlesPhase_fst_inv {s t : Nat × List (Nat × String) × String × List Nat}
    (h1 : s.1 = t.1) (h2 : s.2.2.2.Perm t.2.2.2) :
    (singlesPhase s).1 = (singlesPhase t).1 := by
  have hones : s.2.2.2.count 1 = t.2.2.2.count 1 := h2.count_eq 1
  have hfives :
      (if 0 < t.2.2.2.count 1 then s.2.2.2.filter (fun x => x ≠ 1) else s.2.2.2).count 5 =
        (if 0 < t.2.2.2.count 1 then t.2.2.2.filter (fun x => x ≠ 1) else t.2.2.2).count 5 := by
    split
    · exact (h2.filter _).count_eq 5
    · exact h2.count_eq 5
  unfold singlesPhase
  dsimp only
  rw [h1, hones, hfives,
    apply_ite (Prod.fst : Nat × List (Nat × String) × String → Nat),
    apply_ite (Prod.fst : Nat × List (Nat × String) × String → Nat)]

/-- The descriptive scorer's integer score depends only on the multiset of
values. -/
theorem score_dice_roll_fst_perm {l l' : List Nat} (h : l.Perm l') :
    (score_dice_roll l).1 = (score_dice_roll l').1 := by
  have hfun : (fun v => l.contains v) = (fun v => l'.contains v) :=
    funext (contains_perm h)
  unfold score_dice_roll
  rw [hfun]
  split
  · rfl
  · apply singlesPhase_fst_inv
    · split
      · rfl
      · split
        · rfl
        · exact (kindFold_inv [6, 5, 4, 3, 2, 1] (0, [], "", l) (0, [], "", l') rfl h).1
    · split
      · exact ((((h.erase 1).erase 2).erase 3).erase 4).erase 5
      · split
        · exact ((((h.erase 2).erase 3).erase 4).erase 5).erase 6
        · exact (kindFold_inv [6, 5, 4, 3, 2, 1] (0, [], "", l) (0, [], "", l') rfl h).2

/-- Every nondecreasing list with values in `lo..6` is enumerated by
`sortedRolls`. -/
theorem mem_sortedRolls :
    ∀ (r : List Nat) (lo : Nat), r.Sorted (· ≤ ·) → (∀ v ∈ r, lo ≤ v ∧ v ≤ 6) →
      r ∈ sortedRolls r.length lo := by
  intro r
  induction r with
  | nil =>
    intro lo _ _
    simp [sortedRolls]
  | cons v rest ih =>
    intro lo hs hv
    have hvv := hv v (List.mem_cons_self v rest)
    rw [List.length_cons, sortedRolls]
    simp only [List.mem_flatMap, List.mem_map]
    refine ⟨v, ?_, rest, ?_, rfl⟩
    · rw [List.mem_range']
      exact ⟨v - lo, by omega, by omega⟩
    · apply ih v (List.sorted_cons.mp hs).2
      intro w hw
      exact ⟨(List.sorted_cons.mp hs).1 w hw, (hv w (List.mem_cons_of_mem v hw)).2⟩

set_option maxRecDepth 1000000 in
set_option maxHeartbeats 12000000 in
/-- Exhaustive agreement of the two scorers on all 923 nondecreasing rolls
of length 1..6 over values 1..6 (every roll is a permutation of one of
these). -/
theorem c3_exhaustive :
    ((List.range' 1 6).flatMap (fun k => sortedRolls k 1)).all
      (fun r => score_dice_roll_numba r == (score_dice_roll r).1) = true := by decide

/-- C3: the numeric fast-path scorer agrees with the integer score of the
descriptive scorer on every roll of length 1 through 6 with values in
1..6. -/
theorem claim_C3 (r : List Nat) (h1 : 1 ≤ r.length) (h6 : r.length ≤ 6)
    (hv : ∀ v ∈ r, 1 ≤ v ∧ v ≤ 6) :
    score_dice_roll_numba r = (score_dice_roll r).1 := by
  have hperm : (List.insertionSort (· ≤ ·) r).Perm r := List.perm_insertionSort _ r
  have hsorted : (List.insertionSort (· ≤ ·) r).Sorted (· ≤ ·) :=
    List.sorted_insertionSort _ r
  have hvals : ∀ v ∈ List.insertionSort (· ≤ ·) r, 1 ≤ v ∧ v ≤ 6 :=
    fun v hvm => hv v (hperm.mem_iff.mp hvm)
  have hlen : (List.insertionSort (· ≤ ·) r).length = r.length := hperm.length_eq
  have hmem2 : List.insertionSort (· ≤ ·) r ∈
      (List.range' 1 6).flatMap (fun k => sortedRolls k 1) := by
    rw [List.mem_flatMap]
    refine ⟨r.length, ?_, ?_⟩
    · rw [List.mem_range']
      exact ⟨r.length - 1, by omega, by omega⟩
    · rw [← hlen]
      exact mem_sortedRolls _ 1 hsorted hvals
  have hcheck := List.all_eq_true.mp c3_exhaustive _ hmem2
  calc score_dice_roll_numba r
      = score_dice_roll_numba (List.insertionSort (· ≤ ·) r) :=
        (score_dice_roll_numba_perm hperm).symm
    _ = (score_dice_roll (List.insertionSort (· ≤ ·) r)).1 := by
        simpa using hcheck
    _ = (score_dice_roll r).1 := score_dice_roll_fst_perm hperm

/-- Witness for C3 on the full straight. -/
theorem claim_C3_witness :
    score_dice_roll_numba [1, 2, 3, 4, 5, 6] = (score_dice_roll [1, 2, 3, 4, 5, 6]).1 :=
  claim_C3 [1, 2, 3, 4, 5, 6] (by decide) (by decide) (by decide)

end KCD2Dice
